import Mathlib

/-!
Verification of the action-execution subsystem
(`src/bp/core/services/action/action-service.ts`).

The TypeScript service is shallowly embedded: each method of
`ScopedActionService` becomes a Lean function in a monad `M` combining
an error channel (thrown JS errors), explicit service state (the five
per-bot caches) and a trace of observable effects (content-store reads,
audit-task creation, HTTP calls, script executions).  External
collaborators (content store, workspace resolver, axios, vm2, the
helpers from `./utils` and `../../modules/require` whose sources are not
part of the repository snapshot) are supplied through an `Env` record.
-/

/-- A thrown JavaScript error, reduced to the two fields the service
reads from it (`err.message` and `err.stack`). -/
structure JsError where
  message : String
  stack : String
  deriving DecidableEq, Repr

/-- Errors flowing through the embedded computation.  `js` is an
arbitrary internal error; `actionExecution` models the
`ActionExecutionError(message, actionName, stack)` raised at the router
boundary of `runAction`; `fuelExhausted` is the marker produced when
the recursion fuel of `checkActionRequires` runs out, i.e. when the
source program recurses beyond any bound. -/
inductive RuntimeError where
  | js (e : JsError)
  | actionExecution (message : String) (actionName : String) (stack : String)
  | fuelExhausted
  deriving DecidableEq, Repr

/-- `err.message` as JavaScript would read it on each error shape. -/
def RuntimeError.message : RuntimeError → String
  | .js e => e.message
  | .actionExecution m _ _ => m
  | .fuelExhausted => "Maximum call stack size exceeded"

/-- `err.stack` as JavaScript would read it on each error shape. -/
def RuntimeError.stack : RuntimeError → String
  | .js e => e.stack
  | .actionExecution _ _ s => s
  | .fuelExhausted => "RangeError"

/-- `ActionLocation` from `common/typings`: the scope an action lives in. -/
inductive ActionLocation where
  | global
  | localScope
  deriving DecidableEq, Repr

/-- The string the template literal `${action.location}` produces. -/
def locationStr : ActionLocation → String
  | .global => "global"
  | .localScope => "local"

/-- `ActionDefinition` as built by `getActionDefinition`. -/
structure ActionDefinition where
  name : String
  isRemote : Bool
  location : ActionLocation
  legacy : Bool
  metadata : Option String := none
  deriving DecidableEq, Repr

/-- `event.state.temp`: only the field the service itself writes
(`responseStatusCode`) is modelled. -/
structure TempState where
  responseStatusCode : Option Nat := none
  deriving DecidableEq, Repr

/-- `event.state`. -/
structure EventState where
  temp : TempState
  deriving DecidableEq, Repr

/-- `IO.IncomingEvent`, reduced to the fields the service reads or
writes (`id`, `botId`, `state.temp.responseStatusCode`). -/
structure IncomingEvent where
  id : String
  botId : String
  state : EventState
  deriving DecidableEq, Repr

/-- Terminal status of an audit task. -/
inductive TaskStatus where
  | completed
  | failed
  deriving DecidableEq, Repr

/-- The record handed to `tasksRepository.createTask`. -/
structure TaskRecord where
  eventId : String
  actionName : String
  actionArgs : String
  actionServerId : String
  startedAt : Nat
  endedAt : Nat
  status : TaskStatus
  failureReason : Option String
  deriving DecidableEq, Repr

/-- `ActionServer` from `common/typings`: the remote delegation target. -/
structure ActionServer where
  id : String
  baseUrl : String
  deriving DecidableEq, Repr

/-- Observable effects of the embedded computation. -/
inductive Effect where
  | readGlobalFile (filename : String)
  | readLocalFile (filename : String)
  | requireString (file : String)
  | createTask (t : TaskRecord)
  | httpPost (url : String)
  | runNoVm (code : String)
  | runVm (code : String) (dirPath : String) (timeoutMs : Nat)
  | logError (msg : String)
  | logWarn (msg : String)
  deriving DecidableEq, Repr

/-- Outcome of the `axios` POST in `runInActionServer`: either a
transport-level failure (axios rejects with an error carrying a code)
or a received HTTP response of any status (because `validateStatus`
always returns true, no status is turned into an exception). -/
inductive HttpOutcome where
  | transportError (code : String) (err : JsError)
  | response (status : Nat) (event : IncomingEvent)
  deriving DecidableEq, Repr

/-- The five caches owned by one `ScopedActionService`. -/
structure SState where
  globalActionsCache : Option (List ActionDefinition) := none
  localActionsCache : Option (List ActionDefinition) := none
  scriptsCache : List (String × String) := []
  validScripts : List String := []
  botsWorkspaceIdsCache : List (String × String) := []
  deriving DecidableEq, Repr

/-- The freshly constructed service state: every cache empty. -/
def initState : SState := {}

/-- External collaborators and repository helpers whose sources are not
under `src/`.  `globalFiles`/`localFiles` are the results of the two
`directoryListing('actions', '*.js', EXCLUDES)` calls;
`globalFileContents`/`localFileContents` are `readFileAsString`
(`none` = not-found error).  The remaining fields stand for code this
repository has outside the snapshot: `extractMetadata`
(`./metadata`), and — modelled from the spec — `getBaseLookupPaths`,
`requireTester` (for `prepareRequireTester`: decides whether a required
name resolves within the permitted lookup roots), and
`extractRequiredFiles` (static extraction of the string literals passed
to require-like calls) from `./utils`; `requireFromString`
(`../../modules/require`: executes a file's text, returns whether its
exports are empty, or throws); `execNoVm`/`execVm` give the behaviour
of the compiled script itself. -/
structure Env where
  botId : String
  globalFiles : List String
  localFiles : List String
  globalFileContents : String → Option String
  localFileContents : String → Option String
  extractMetadata : String → String
  getBaseLookupPaths : String → List String
  requireTester : String → List String → String → Bool
  extractRequiredFiles : String → List String
  requireFromString : String → Except JsError Bool
  strictRequire : Bool
  workspaceIdOf : String → String
  httpOutcome : String → HttpOutcome
  execNoVm : String → Except JsError Unit
  execVm : String → Except JsError Unit
  now : Nat

/-- The embedding monad: state in, then (result or thrown error, state
out, effect trace).  State changes and effects performed before a throw
survive it, as they do in the JavaScript original. -/
def M (α : Type) : Type := SState → (Except RuntimeError α) × SState × List Effect

/-- Return a value, touching nothing. -/
def M.pureM (a : α) : M α := fun s => (.ok a, s, [])

/-- Sequencing: traces concatenate; an error in the first component
short-circuits the second. -/
def M.bindM (x : M α) (f : α → M β) : M β := fun s =>
  match x s with
  | (.error e, s1, t) => (.error e, s1, t)
  | (.ok a, s1, t) =>
    match f a s1 with
    | (r, s2, t2) => (r, s2, t ++ t2)

instance : Monad M where
  pure := M.pureM
  bind := M.bindM

/-- `throw err`. -/
def M.throwErr (e : RuntimeError) : M α := fun s => (.error e, s, [])

/-- Record one observable effect. -/
def M.emit (eff : Effect) : M Unit := fun s => (.ok (), s, [eff])

/-- Read the service state. -/
def M.getS : M SState := fun s => (.ok s, s, [])

/-- Update the service state. -/
def M.modifyS (f : SState → SState) : M Unit := fun s => (.ok (), f s, [])

/-- `try … catch (err) …`.  A JavaScript catch-all handles any thrown
value; the `fuelExhausted` marker is a modelling artefact standing for
a computation that never completes, so no handler may intercept it. -/
def M.tryCatch (x : M α) (h : RuntimeError → M α) : M α := fun s =>
  match x s with
  | (.error .fuelExhausted, s1, t) => (.error .fuelExhausted, s1, t)
  | (.error e, s1, t) =>
    match h e s1 with
    | (r, s2, t2) => (r, s2, t ++ t2)
  | ok => ok

/-- Lift a fallible external call into `M`. -/
def M.liftExcept : Except JsError α → M α
  | .ok a => M.pureM a
  | .error e => M.throwErr (.js e)

/-- Replace-or-append update of an association list, the behaviour of
`Map.prototype.set`. -/
def setAssoc (k v : String) : List (String × String) → List (String × String)
  | [] => [(k, v)]
  | (k1, v1) :: rest => if k1 = k then (k, v) :: rest else (k1, v1) :: setAssoc k v rest

/-- Does `needle` occur as a leading run of `hay`? -/
def leadMatch : List Char → List Char → Bool
  | [], _ => true
  | _ :: _, [] => false
  | a :: as, b :: bs => a == b && leadMatch as bs

/-- Substring containment on character lists (`String.prototype.includes`
/ `indexOf(...) > -1`). -/
def containsSub (needle : List Char) : List Char → Bool
  | [] => leadMatch needle []
  | c :: rest => leadMatch needle (c :: rest) || containsSub needle rest

/-- `file.includes('.http.js')`. -/
def includesHttpJs (file : String) : Bool :=
  containsSub ".http.js".toList file.toList

/-- One step of the first-match replacement performed by
`file.replace(/\.js|\.http\.js$/i, '')`: scanning left to right, the
alternative `.js` matches anywhere and the alternative `.http.js` only
at the end of the string; the first match is deleted and the remainder
kept. -/
def stripExtChars : List Char → List Char
  | [] => []
  | c :: rest =>
    if leadMatch ".js".toList ((c :: rest).map Char.toLower) then rest.drop 2
    else if leadMatch ".http.js".toList ((c :: rest).map Char.toLower) && (c :: rest).length = 8 then []
    else c :: stripExtChars rest

/-- `file.replace(/\.js|\.http\.js$/i, '')` as used to derive an action
name from its file name. -/
def stripActionExt (file : String) : String :=
  String.mk (stripExtChars file.toList)

/-- `name.split('/')[0]`: the segment before the first path separator. -/
def firstSegment (name : String) : String :=
  String.mk (name.toList.takeWhile (fun c => !(c == '/')))

/-- `key.toLowerCase()`. -/
def lowerStr (s : String) : String :=
  String.mk (s.toList.map Char.toLower)

/-- `enabled` from `./utils` (not in the snapshot).  Modelled from the
spec: a naming convention marks disabled files; the conventional marker
is a leading dot on the file name. -/
def enabled (file : String) : Bool :=
  !(leadMatch ['.'] file.toList)

/-- `readFileAsString` on the global scope: records the read attempt,
throws a not-found error when the file is absent. -/
def readGlobalFile (env : Env) (filename : String) : M String := do
  M.emit (.readGlobalFile filename)
  match env.globalFileContents filename with
  | some s => pure s
  | none => M.throwErr (.js ⟨"File " ++ filename ++ " not found", "ghost"⟩)

/-- `readFileAsString` on the bot-local scope. -/
def readLocalFile (env : Env) (filename : String) : M String := do
  M.emit (.readLocalFile filename)
  match env.localFileContents filename with
  | some s => pure s
  | none => M.throwErr (.js ⟨"File " ++ filename ++ " not found", "ghost"⟩)

/-- The composite key `` `${action.name}_${action.legacy}_${action.location}` ``
under which `getActionScript` stores a script. -/
def scriptCacheKey (a : ActionDefinition) : String :=
  a.name ++ "_" ++ (if a.legacy then "true" else "false") ++ "_" ++ locationStr a.location

/-- `ScopedActionService.getActionScript`: cache lookup is by plain
`action.name`, the miss path reads the script from the content store
(global: `name.js`; local: `name.js` or `name.http.js` by `legacy`) and
stores it under the composite key. -/
def getActionScript (env : Env) (a : ActionDefinition) : M String := do
  let st ← M.getS
  match st.scriptsCache.lookup a.name with
  | some s => pure s
  | none => do
    let script ←
      if a.location = .global then
        readGlobalFile env (a.name ++ ".js")
      else
        readLocalFile env (if a.legacy then a.name ++ ".js" else a.name ++ ".http.js")
    M.modifyS (fun st => { st with scriptsCache := setAssoc (scriptCacheKey a) script st.scriptsCache })
    pure script

/-- `ScopedActionService.getActionDefinition`: derives the name by the
first-match extension strip, marks `legacy` unless the file name
includes `.http.js`, and (when requested) attaches metadata extracted
from the script text. -/
def getActionDefinition (env : Env) (file : String) (location : ActionLocation)
    (includeMetadata : Bool) : M ActionDefinition := do
  let action : ActionDefinition :=
    { name := stripActionExt file
      isRemote := false
      location
      legacy := !includesHttpJs file }
  if includeMetadata then
    let script ← getActionScript env action
    pure { action with metadata := some (env.extractMetadata script) }
  else
    pure action

/-- `ScopedActionService.listLocalActions`: cache-first; otherwise list
the bot's `actions` directory, drop disabled files, build definitions
with metadata, and populate the cache. -/
def listLocalActions (env : Env) : M (List ActionDefinition) := do
  let st ← M.getS
  match st.localActionsCache with
  | some as => pure as
  | none => do
    let actionFiles := env.localFiles.filter enabled
    let actions ← actionFiles.mapM (fun f => getActionDefinition env f .localScope true)
    M.modifyS (fun st => { st with localActionsCache := some actions })
    pure actions

/-- `ScopedActionService.listGlobalActions`: same shape on the global
scope. -/
def listGlobalActions (env : Env) : M (List ActionDefinition) := do
  let st ← M.getS
  match st.globalActionsCache with
  | some as => pure as
  | none => do
    let actionFiles := env.globalFiles.filter enabled
    let actions ← actionFiles.mapM (fun f => getActionDefinition env f .global true)
    M.modifyS (fun st => { st with globalActionsCache := some actions })
    pure actions

/-- `ScopedActionService.listActions`: global actions first, then local
actions, concatenated without deduplication. -/
def listActions (env : Env) : M (List ActionDefinition) := do
  let globalActions ← listGlobalActions env
  let localActions ← listLocalActions env
  pure (globalActions ++ localActions)

/-- `ScopedActionService.hasAction`. -/
def hasAction (env : Env) (actionName : String) : M Bool := do
  let actions ← listActions env
  pure (actions.any (fun x => x.name = actionName))

/-- `ScopedActionService.findAction`: first match by name in the
concatenated list; throws when absent. -/
def findAction (env : Env) (actionName : String) : M ActionDefinition := do
  let actions ← listActions env
  match actions.find? (fun x => x.name = actionName) with
  | some action => pure action
  | none => M.throwErr (.js ⟨"Action \"" ++ actionName ++ "\" not found", "findAction"⟩)

/-- The `BUILTIN_MODULES` constant of `listTrustedActions`, duplicate
entry included. -/
def BUILTIN_MODULES : List String :=
  ["analytics", "basic-skills", "builtin", "builtin", "channel-messenger", "channel-slack",
   "channel-teams", "channel-telegram", "channel-web", "code-editor", "examples",
   "extensions", "history", "hitl", "nlu", "qna", "testing"]

/-- `ScopedActionService.listTrustedActions`: global actions whose first
name segment is a built-in module namespace. -/
def listTrustedActions (env : Env) : M (List ActionDefinition) := do
  let globalActions ← listGlobalActions env
  pure (globalActions.filter (fun a => BUILTIN_MODULES.contains (firstSegment a.name)))

/-- `ScopedActionService.isTrustedAction`: membership of the name among
the trusted actions' names. -/
def isTrustedAction (env : Env) (actionName : String) : M Bool := do
  let trustedActions ← listTrustedActions env
  pure ((trustedActions.map (fun a => a.name)).contains actionName)

/-- Result record of `getActionDetails`. -/
structure ActionDetails where
  code : String
  dirPath : String
  lookups : List String
  action : ActionDefinition
  deriving Repr

/-- `ScopedActionService.getActionDetails`: find the action, fetch its
script, compute its on-disk path and the base lookup roots. -/
def getActionDetails (env : Env) (actionName : String) : M ActionDetails := do
  let action ← findAction env actionName
  let code ← getActionScript env action
  let botFolder := if action.location = .global then "global" else "bots/" ++ env.botId
  let dirPath := "/data/" ++ botFolder ++ "/actions/" ++ actionName ++ ".js"
  pure { code, dirPath, lookups := env.getBaseLookupPaths dirPath, action }

/-- `ScopedActionService.getWorkspaceIdForBot`: memoised workspace
lookup. -/
def getWorkspaceIdForBot (env : Env) (botId : String) : M String := do
  let st ← M.getS
  match st.botsWorkspaceIdsCache.lookup botId with
  | some w => pure w
  | none => do
    let w := env.workspaceIdOf botId
    M.modifyS (fun st => { st with botsWorkspaceIdsCache := setAssoc botId w st.botsWorkspaceIdsCache })
    pure w

/-- The `for (const file of files)` loop body of `checkActionRequires`:
a file accepted by the require tester is skipped; otherwise the file is
recursively validated via `recurse` (result ignored, as in the source),
loaded and executed via require-from-string, with an empty-exports
warning; any throw is caught, logged, and ends the whole loop with
`false`. -/
def checkRequireLoop (env : Env) (recurse : String → M Bool) (actionName parentScript : String)
    (lookups : List String) : List String → M Bool
  | [] => pure true
  | file :: rest => do
    if env.requireTester parentScript lookups file then
      checkRequireLoop env recurse actionName parentScript lookups rest
    else do
      let ok ← M.tryCatch
        (do
          let _ ← recurse file
          let d ← getActionDetails env file
          M.emit (.requireString file)
          let isEmptyExports ← M.liftExcept (env.requireFromString d.code)
          if isEmptyExports then
            M.emit (.logWarn ("Your required file (" ++ file ++ ") looks empty. Missing module.exports ? "))
          pure true)
        (fun _err => do
          M.emit (.logError ("There is an issue with required file " ++ file ++ ".js in action " ++ actionName ++ ".js"))
          pure false)
      if ok then
        checkRequireLoop env recurse actionName parentScript lookups rest
      else
        pure false

/-- `ScopedActionService.checkActionRequires`: memo hit on
`_validScripts` returns true at once; otherwise the action's details
are fetched, the statically required files are extracted and processed
by the loop; only after the whole loop succeeds is the action recorded
as valid.  The source recursion carries no structural bound, so a
`fuel` parameter counts the nesting depth of recursive calls; running
out of fuel yields the uncatchable `fuelExhausted` marker. -/
def checkActionRequires (env : Env) : Nat → String → M Bool
  | 0, _ => M.throwErr .fuelExhausted
  | Nat.succ fuel, actionName => do
    let st ← M.getS
    if st.validScripts.contains actionName then
      pure true
    else do
      let d ← getActionDetails env actionName
      let ok ← checkRequireLoop env (fun file => checkActionRequires env fuel file)
        actionName d.dirPath d.lookups (env.extractRequiredFiles d.code)
      if ok then do
        M.modifyS (fun st => { st with validScripts := actionName :: st.validScripts })
        pure true
      else
        pure false

/-- `ScopedActionService.loadLocalAction`: when the experimental
strict-require flag is set, run `checkActionRequires` — its boolean
result is discarded, exactly as in the source — then fetch the action's
details. -/
def loadLocalAction (env : Env) (fuel : Nat) (actionName : String) : M (String × String) := do
  if env.strictRequire then do
    let _ ← checkActionRequires env fuel actionName
    let d ← getActionDetails env actionName
    pure (d.code, d.dirPath)
  else do
    let d ← getActionDetails env actionName
    pure (d.code, d.dirPath)

/-- `ScopedActionService.runWithoutVm`: compile the script as a plain
function and invoke it in-process — no isolation, no timeout. -/
def runWithoutVm (env : Env) (code : String) : M Unit := do
  M.emit (.runNoVm code)
  M.liftExcept (env.execNoVm code)

/-- `ScopedActionService.runInVm`: run the script inside a `NodeVM`
sandbox configured with a 5000 ms timeout. -/
def runInVm (env : Env) (code : String) (dirPath : String) : M Unit := do
  M.emit (.runVm code dirPath 5000)
  M.liftExcept (env.execVm code)

/-- `ScopedActionService.runTrustedCode`: load the action and execute
it without a VM. -/
def runTrustedCode (env : Env) (fuel : Nat) (actionName : String) : M Unit := do
  let (code, _dirPath) ← loadLocalAction env fuel actionName
  runWithoutVm env code

/-- `ScopedActionService.runLegacyAction`: load the action and execute
it inside the sandbox VM. -/
def runLegacyAction (env : Env) (fuel : Nat) (actionName : String) : M Unit := do
  let (code, dirPath) ← loadLocalAction env fuel actionName
  runInVm env code dirPath

/-- `RunActionProps`. -/
structure RunActionProps where
  actionName : String
  actionServer : Option ActionServer := none
  incomingEvent : IncomingEvent
  actionArgs : String
  deriving Repr

/-- `ScopedActionService.runInActionServer`: resolve the workspace,
mint the token, POST to `<baseUrl>/action/run`; a transport failure
records a `failed` audit task with reason `axios:<code>` and rethrows
the original error; any HTTP response records a `completed` audit task
and yields the server's event with `state.temp.responseStatusCode` set
to the observed status. -/
def runInActionServer (env : Env) (actionServer : ActionServer)
    (actionName : String) (actionArgs : String) (incomingEvent : IncomingEvent) :
    M IncomingEvent := do
  let botId := incomingEvent.botId
  let _workspaceId ← getWorkspaceIdForBot env botId
  let url := actionServer.baseUrl ++ "/action/run"
  let mkTask (status : TaskStatus) (failureReason : Option String) : TaskRecord :=
    { eventId := incomingEvent.id
      actionName
      actionArgs
      actionServerId := actionServer.id
      startedAt := env.now
      endedAt := env.now
      status
      failureReason }
  M.emit (.httpPost url)
  match env.httpOutcome url with
  | .transportError code err => do
    M.emit (.createTask (mkTask .failed (some ("axios:" ++ code))))
    M.throwErr (.js err)
  | .response status ev => do
    M.emit (.createTask (mkTask .completed none))
    pure { ev with state := { ev.state with temp := { ev.state.temp with responseStatusCode := some status } } }

/-- The `try` body of `runAction`: delegate to the action server when a
target is supplied (the returned event only reassigns the method's
local variable, so the body's value is unit); otherwise classify trust
and run in-process. -/
def runActionBody (env : Env) (fuel : Nat) (props : RunActionProps) : M Unit := do
  match props.actionServer with
  | some srv => do
    let _ev ← runInActionServer env srv props.actionName props.actionArgs props.incomingEvent
    pure ()
  | none => do
    let trusted ← isTrustedAction env props.actionName
    if trusted then
      runTrustedCode env fuel props.actionName
    else
      runLegacyAction env fuel props.actionName

/-- `ScopedActionService.runAction`: the body runs under a single
catch-all that logs the failure and rethrows
`ActionExecutionError(err.message, actionName, err.stack)`. -/
def runAction (env : Env) (fuel : Nat) (props : RunActionProps) : M Unit :=
  M.tryCatch (runActionBody env fuel props)
    (fun err => do
      M.emit (.logError ("An error occurred while executing the action \"" ++ props.actionName))
      M.throwErr (.actionExecution err.message props.actionName err.stack))

/-- `DEBOUNCE_DELAY = ms('2s')`. -/
def DEBOUNCE_DELAY : Nat := 2000

/-- The key filter of `_listenForCacheInvalidation`:
`key.toLowerCase().indexOf('/actions') > -1`. -/
def keyMatchesActions (key : String) : Bool :=
  containsSub "/actions".toList (lowerStr key).toList

/-- `ScopedActionService._clearCache`: drop all five caches. -/
def clearCache (_st : SState) : SState :=
  { globalActionsCache := none
    localActionsCache := none
    scriptsCache := []
    validScripts := []
    botsWorkspaceIdsCache := [] }

/-- One lodash `debounce(f, 2000, {leading: true, trailing: false})`
invocation at time `t`: the wrapped function fires iff no previous
invocation exists or at least `wait` ms passed since the previous one
(leading edge; with `trailing: false` a timer expiry never fires), and
the last-invocation clock is updated either way. -/
def debounceStep (wait t : Nat) : Option Nat → Bool × Option Nat
  | none => (true, some t)
  | some last => (decide (wait ≤ t - last), some t)

/-- One invalidation event `(t, key)` against the debounced
`_clearCache` subscription: a non-matching key changes nothing; a
matching key steps the debouncer and, when it fires, clears the caches
and counts one clear. -/
def invalidationStep (ev : Nat × String) :
    Option Nat × SState × Nat → Option Nat × SState × Nat :=
  fun (last, st, clears) =>
    if keyMatchesActions ev.2 then
      match debounceStep DEBOUNCE_DELAY ev.1 last with
      | (true, last2) => (last2, clearCache st, clears + 1)
      | (false, last2) => (last2, st, clears)
    else
      (last, st, clears)

/-- A whole stream of invalidation events, in order. -/
def processInvalidations (evs : List (Nat × String)) (start : Option Nat × SState × Nat) :
    Option Nat × SState × Nat :=
  evs.foldl (fun acc ev => invalidationStep ev acc) start

/-- A sample incoming event for concrete runs. -/
def sampleEvent : IncomingEvent :=
  { id := "evt-1", botId := "bot1", state := { temp := {} } }

/-- The event object a remote action server sends back
(`response.data.incomingEvent`). -/
def remoteEvent : IncomingEvent :=
  { id := "evt-remote", botId := "bot1", state := { temp := {} } }

/-- A neutral environment: empty stores, benign collaborators.  Claim
environments override the fields they exercise. -/
def baseEnv : Env :=
  { botId := "bot1"
    globalFiles := []
    localFiles := []
    globalFileContents := fun _ => none
    localFileContents := fun _ => none
    extractMetadata := fun _ => "meta"
    getBaseLookupPaths := fun _ => []
    requireTester := fun _ _ _ => true
    extractRequiredFiles := fun _ => []
    requireFromString := fun _ => .ok false
    strictRequire := false
    workspaceIdOf := fun _ => "workspace1"
    httpOutcome := fun _ => .response 200 remoteEvent
    execNoVm := fun _ => .ok ()
    execVm := fun _ => .ok ()
    now := 7 }

/-- One trusted global action (`nlu/intent`) and one untrusted local
action (`my-action`). -/
def envBasic : Env := { baseEnv with
  globalFiles := ["nlu/intent.js"]
  localFiles := ["my-action.js"]
  globalFileContents := fun f => if f = "nlu/intent.js" then some "GCODE" else none
  localFileContents := fun f => if f = "my-action.js" then some "LCODE" else none }

/-- The same action name in both scopes with different scripts. -/
def envDup : Env := { baseEnv with
  globalFiles := ["dup.js"]
  localFiles := ["dup.js"]
  globalFileContents := fun f => if f = "dup.js" then some "GDUP" else none
  localFileContents := fun f => if f = "dup.js" then some "LDUP" else none }

/-- A trusted-looking name that exists only in the bot-local scope. -/
def envLocalOnly : Env := { baseEnv with
  localFiles := ["nlu/detect-intent.js"]
  localFileContents := fun f => if f = "nlu/detect-intent.js" then some "LNLU" else none }

/-- Remote delegation where the server answers HTTP 500. -/
def envRemote500 : Env := { baseEnv with
  globalFiles := ["nlu/intent.js"]
  globalFileContents := fun f => if f = "nlu/intent.js" then some "GCODE" else none
  httpOutcome := fun _ => .response 500 remoteEvent }

/-- Remote delegation where the transport times out. -/
def envRemoteDown : Env := { baseEnv with
  httpOutcome := fun _ =>
    .transportError "ECONNABORTED" ⟨"timeout of 5000ms exceeded", "axios-stack"⟩ }

/-- Strict-require mode with one untrusted action whose script requires
a path-traversal escape that resolves nowhere. -/
def envEscape : Env := { baseEnv with
  globalFiles := ["hello.js"]
  globalFileContents := fun f => if f = "hello.js" then some "CODE_hello" else none
  extractRequiredFiles := fun c => if c = "CODE_hello" then ["../../../etc/hosts"] else []
  requireTester := fun _ _ _ => false
  strictRequire := true }

/-- A self-referential require graph: catalogued action `a` statically
requires `a` itself, and the require tester cannot resolve it on the
file system (the BPFS-fallback case). -/
def envCycle : Env := { baseEnv with
  globalFiles := ["a.js"]
  globalFileContents := fun f => if f = "a.js" then some "CODE_a" else none
  extractRequiredFiles := fun c => if c = "CODE_a" then ["a"] else []
  requireTester := fun _ _ _ => false
  strictRequire := true }

/-- The service state reached from `initState` after one
`getActionDetails envCycle "a"`: both catalogs populated, the script
cached under its composite key, nothing validated. -/
def stCycle : SState :=
  { globalActionsCache := some [{ name := "a", isRemote := false, location := .global,
                                  legacy := true, metadata := some "meta" }]
    localActionsCache := some []
    scriptsCache := [("a_true_global", "CODE_a")]
    validScripts := []
    botsWorkspaceIdsCache := [] }

/-- Props: run the untrusted local action in-process. -/
def propsSandbox : RunActionProps :=
  { actionName := "my-action", incomingEvent := sampleEvent, actionArgs := "{}" }

/-- Props: run the trusted global action in-process. -/
def propsTrusted : RunActionProps :=
  { actionName := "nlu/intent", incomingEvent := sampleEvent, actionArgs := "{}" }

/-- Props: a name absent from both catalogs. -/
def propsMissing : RunActionProps :=
  { actionName := "nope", incomingEvent := sampleEvent, actionArgs := "{}" }

/-- Props: the escaping action of `envEscape`. -/
def propsEscape : RunActionProps :=
  { actionName := "hello", incomingEvent := sampleEvent, actionArgs := "{}" }

/-- The delegation target used by the remote scenarios. -/
def srv1 : ActionServer := { id := "as-1", baseUrl := "http://remote:4000" }

/-- Props: delegate the trusted global action to `srv1`. -/
def propsRemote : RunActionProps :=
  { actionName := "nlu/intent", actionServer := some srv1,
    incomingEvent := sampleEvent, actionArgs := "{}" }

/-- An invalidation key as the content store emits it, mixed case. -/
def burstKey : String := "data/bots/bot1/Actions/flow.js"

/-- Five invalidation events inside 500 ms. -/
def burst5 : List (Nat × String) :=
  [(0, burstKey), (100, burstKey), (250, burstKey), (400, burstKey), (500, burstKey)]

/-- A service state with every cache non-empty, to make clearing
observable. -/
def dirtyState : SState :=
  { globalActionsCache := some [{ name := "g", isRemote := false, location := .global, legacy := true }]
    localActionsCache := some [{ name := "l", isRemote := false, location := .localScope, legacy := true }]
    scriptsCache := [("g_true_global", "S")]
    validScripts := ["g"]
    botsWorkspaceIdsCache := [("bot1", "workspace1")] }

/-- The `ActionDefinition` record `getActionDefinition` builds before
attaching metadata. -/
def bareDef (file : String) (loc : ActionLocation) : ActionDefinition :=
  { name := stripActionExt file
    isRemote := false
    location := loc
    legacy := !includesHttpJs file
    metadata := none }

/-- The global `dup` action of `envDup`, as listed. -/
def dupGlobalDef : ActionDefinition :=
  { name := "dup"
    isRemote := false
    location := .global
    legacy := true
    metadata := some "meta" }

/-- The local `dup` action of `envDup`, as listed. -/
def dupLocalDef : ActionDefinition :=
  { name := "dup"
    isRemote := false
    location := .localScope
    legacy := true
    metadata := some "meta" }

theorem M.bind_eq (x : M α) (f : α → M β) : x >>= f = M.bindM x f := rfl

theorem M.pure_apply (a : α) (s : SState) : (pure a : M α) s = (.ok a, s, []) := rfl

theorem M.bindM_ok {x : M α} {f : α → M β} {s s1 : SState} {t : List Effect} {a : α}
    (h : x s = (.ok a, s1, t)) :
    M.bindM x f s = ((f a s1).1, (f a s1).2.1, t ++ (f a s1).2.2) := by
  unfold M.bindM
  rw [h]

theorem M.bindM_error {x : M α} {f : α → M β} {s s1 : SState} {t : List Effect}
    {e : RuntimeError} (h : x s = (.error e, s1, t)) :
    M.bindM x f s = (.error e, s1, t) := by
  unfold M.bindM
  rw [h]

theorem M.tryCatch_ok {x : M α} {hd : RuntimeError → M α} {s s1 : SState} {t : List Effect}
    {a : α} (h : x s = (.ok a, s1, t)) :
    M.tryCatch x hd s = (.ok a, s1, t) := by
  unfold M.tryCatch
  rw [h]

theorem M.tryCatch_fuel {x : M α} {hd : RuntimeError → M α} {s s1 : SState} {t : List Effect}
    (h : x s = (.error .fuelExhausted, s1, t)) :
    M.tryCatch x hd s = (.error .fuelExhausted, s1, t) := by
  unfold M.tryCatch
  rw [h]

theorem M.tryCatch_error {x : M α} {hd : RuntimeError → M α} {s s1 : SState} {t : List Effect}
    {e : RuntimeError} (h : x s = (.error e, s1, t)) (hne : e ≠ .fuelExhausted) :
    M.tryCatch x hd s = ((hd e s1).1, (hd e s1).2.1, t ++ (hd e s1).2.2) := by
  unfold M.tryCatch
  rw [h]
  cases e with
  | js e0 => rfl
  | actionExecution m n st => rfl
  | fuelExhausted => exact absurd rfl hne

/-- Every effect the computation can emit, from any state, satisfies
`P`. -/
def TraceOnly (P : Effect → Prop) (x : M α) : Prop :=
  ∀ s : SState, ∀ eff ∈ (x s).2.2, P eff

theorem traceOnly_pure {P : Effect → Prop} (a : α) : TraceOnly P (pure a : M α) := by
  intro s eff heff
  simp [Pure.pure, M.pureM] at heff

theorem traceOnly_pureM {P : Effect → Prop} (a : α) : TraceOnly P (M.pureM a : M α) := by
  intro s eff heff
  simp [M.pureM] at heff

theorem traceOnly_throwErr {P : Effect → Prop} (e : RuntimeError) :
    TraceOnly P (M.throwErr e : M α) := by
  intro s eff heff
  simp [M.throwErr] at heff

theorem traceOnly_getS {P : Effect → Prop} : TraceOnly P M.getS := by
  intro s eff heff
  simp [M.getS] at heff

theorem traceOnly_modifyS {P : Effect → Prop} (f : SState → SState) :
    TraceOnly P (M.modifyS f) := by
  intro s eff heff
  simp [M.modifyS] at heff

theorem traceOnly_emit {P : Effect → Prop} {eff0 : Effect} (h : P eff0) :
    TraceOnly P (M.emit eff0) := by
  intro s eff heff
  simp [M.emit] at heff
  simpa [heff] using h

theorem traceOnly_liftExcept {P : Effect → Prop} (r : Except JsError α) :
    TraceOnly P (M.liftExcept r) := by
  intro s eff heff
  cases r with
  | ok a => simp [M.liftExcept, M.pureM] at heff
  | error e => simp [M.liftExcept, M.throwErr] at heff

theorem traceOnly_bindM {P : Effect → Prop} {x : M α} {f : α → M β}
    (hx : TraceOnly P x) (hf : ∀ a, TraceOnly P (f a)) :
    TraceOnly P (M.bindM x f) := by
  intro s eff heff
  unfold M.bindM at heff
  rcases hxs : x s with ⟨r, s1, t1⟩
  rw [hxs] at heff
  cases r with
  | error e =>
    exact hx s eff (by rw [hxs]; exact heff)
  | ok a =>
    have heff2 : eff ∈ t1 ++ (f a s1).2.2 := heff
    rcases List.mem_append.mp heff2 with h1 | h2
    · exact hx s eff (by rw [hxs]; exact h1)
    · exact hf a s1 eff h2

theorem traceOnly_bind {P : Effect → Prop} {x : M α} {f : α → M β}
    (hx : TraceOnly P x) (hf : ∀ a, TraceOnly P (f a)) :
    TraceOnly P (x >>= f) :=
  traceOnly_bindM hx hf

theorem traceOnly_tryCatch {P : Effect → Prop} {x : M α} {hd : RuntimeError → M α}
    (hx : TraceOnly P x) (hh : ∀ e, TraceOnly P (hd e)) :
    TraceOnly P (M.tryCatch x hd) := by
  intro s eff heff
  unfold M.tryCatch at heff
  rcases hxs : x s with ⟨r, s1, t1⟩
  rw [hxs] at heff
  cases r with
  | ok a => exact hx s eff (by rw [hxs]; exact heff)
  | error e =>
    cases e with
    | fuelExhausted => exact hx s eff (by rw [hxs]; exact heff)
    | js e0 =>
      have heff2 : eff ∈ t1 ++ (hd (.js e0) s1).2.2 := heff
      rcases List.mem_append.mp heff2 with h1 | h2
      · exact hx s eff (by rw [hxs]; exact h1)
      · exact hh _ s1 eff h2
    | actionExecution m n st =>
      have heff2 : eff ∈ t1 ++ (hd (.actionExecution m n st) s1).2.2 := heff
      rcases List.mem_append.mp heff2 with h1 | h2
      · exact hx s eff (by rw [hxs]; exact h1)
      · exact hh _ s1 eff h2

theorem traceOnly_ite {P : Effect → Prop} (c : Prop) [Decidable c] {x y : M α}
    (hx : TraceOnly P x) (hy : TraceOnly P y) :
    TraceOnly P (if c then x else y) := by
  by_cases h : c <;> simp [h, hx, hy]

theorem traceOnly_mapM_loop {P : Effect → Prop} {β : Type} {f : String → M β}
    (hf : ∀ a, TraceOnly P (f a)) :
    ∀ (as : List String) (acc : List β), TraceOnly P (List.mapM.loop f as acc)
  | [], acc => by
    unfold List.mapM.loop
    exact traceOnly_pure _
  | a :: as, acc => by
    unfold List.mapM.loop
    exact traceOnly_bind (hf a) (fun b => traceOnly_mapM_loop hf as (b :: acc))

theorem traceOnly_mapM {P : Effect → Prop} {β : Type} {f : String → M β}
    (hf : ∀ a, TraceOnly P (f a)) (as : List String) :
    TraceOnly P (as.mapM f) :=
  traceOnly_mapM_loop hf as []

/-- Effects that are neither a script execution nor an HTTP call: the
catalog, script-cache and require-validation machinery emits only
these. -/
def NonExec : Effect → Prop
  | .runNoVm _ => False
  | .runVm _ _ _ => False
  | .httpPost _ => False
  | _ => True

theorem nonExec_readGlobalFile (env : Env) (f : String) :
    TraceOnly NonExec (readGlobalFile env f) := by
  unfold readGlobalFile
  refine traceOnly_bind (traceOnly_emit trivial) (fun _ => ?_)
  cases env.globalFileContents f with
  | some s => exact traceOnly_pure _
  | none => exact traceOnly_throwErr _

theorem nonExec_readLocalFile (env : Env) (f : String) :
    TraceOnly NonExec (readLocalFile env f) := by
  unfold readLocalFile
  refine traceOnly_bind (traceOnly_emit trivial) (fun _ => ?_)
  cases env.localFileContents f with
  | some s => exact traceOnly_pure _
  | none => exact traceOnly_throwErr _

theorem nonExec_getActionScript (env : Env) (a : ActionDefinition) :
    TraceOnly NonExec (getActionScript env a) := by
  unfold getActionScript
  refine traceOnly_bind traceOnly_getS (fun st => ?_)
  cases st.scriptsCache.lookup a.name with
  | some s => exact traceOnly_pure _
  | none =>
    refine traceOnly_ite (a.location = .global) ?_ ?_
    · exact traceOnly_bind (nonExec_readGlobalFile env _)
        (fun script => traceOnly_bind (traceOnly_modifyS _) (fun _ => traceOnly_pure _))
    · exact traceOnly_bind (nonExec_readLocalFile env _)
        (fun script => traceOnly_bind (traceOnly_modifyS _) (fun _ => traceOnly_pure _))

theorem nonExec_getActionDefinition (env : Env) (file : String) (loc : ActionLocation)
    (im : Bool) : TraceOnly NonExec (getActionDefinition env file loc im) := by
  unfold getActionDefinition
  refine traceOnly_ite (im = true) ?_ (traceOnly_pure _)
  exact traceOnly_bind (nonExec_getActionScript env _) (fun _ => traceOnly_pure _)

theorem nonExec_listLocalActions (env : Env) :
    TraceOnly NonExec (listLocalActions env) := by
  unfold listLocalActions
  refine traceOnly_bind traceOnly_getS (fun st => ?_)
  cases st.localActionsCache with
  | some as => exact traceOnly_pure _
  | none =>
    refine traceOnly_bind (traceOnly_mapM (fun f => nonExec_getActionDefinition env f _ _) _)
      (fun actions => ?_)
    exact traceOnly_bind (traceOnly_modifyS _) (fun _ => traceOnly_pure _)

theorem nonExec_listGlobalActions (env : Env) :
    TraceOnly NonExec (listGlobalActions env) := by
  unfold listGlobalActions
  refine traceOnly_bind traceOnly_getS (fun st => ?_)
  cases st.globalActionsCache with
  | some as => exact traceOnly_pure _
  | none =>
    refine traceOnly_bind (traceOnly_mapM (fun f => nonExec_getActionDefinition env f _ _) _)
      (fun actions => ?_)
    exact traceOnly_bind (traceOnly_modifyS _) (fun _ => traceOnly_pure _)

theorem nonExec_listActions (env : Env) : TraceOnly NonExec (listActions env) := by
  unfold listActions
  exact traceOnly_bind (nonExec_listGlobalActions env)
    (fun _ => traceOnly_bind (nonExec_listLocalActions env) (fun _ => traceOnly_pure _))

theorem nonExec_findAction (env : Env) (n : String) :
    TraceOnly NonExec (findAction env n) := by
  unfold findAction
  refine traceOnly_bind (nonExec_listActions env) (fun actions => ?_)
  cases actions.find? (fun x => x.name = n) with
  | some a => exact traceOnly_pure _
  | none => exact traceOnly_throwErr _

theorem nonExec_listTrustedActions (env : Env) :
    TraceOnly NonExec (listTrustedActions env) := by
  unfold listTrustedActions
  exact traceOnly_bind (nonExec_listGlobalActions env) (fun _ => traceOnly_pure _)

theorem nonExec_isTrustedAction (env : Env) (n : String) :
    TraceOnly NonExec (isTrustedAction env n) := by
  unfold isTrustedAction
  exact traceOnly_bind (nonExec_listTrustedActions env) (fun _ => traceOnly_pure _)

theorem nonExec_getActionDetails (env : Env) (n : String) :
    TraceOnly NonExec (getActionDetails env n) := by
  unfold getActionDetails
  refine traceOnly_bind (nonExec_findAction env n) (fun a => ?_)
  exact traceOnly_bind (nonExec_getActionScript env a) (fun _ => traceOnly_pure _)

theorem nonExec_checkRequireLoop (env : Env) {recurse : String → M Bool}
    (hrec : ∀ f, TraceOnly NonExec (recurse f)) (an ps : String) (lk : List String) :
    ∀ files : List String, TraceOnly NonExec (checkRequireLoop env recurse an ps lk files)
  | [] => by
    unfold checkRequireLoop
    exact traceOnly_pure _
  | file :: rest => by
    unfold checkRequireLoop
    refine traceOnly_ite (env.requireTester ps lk file = true)
      (nonExec_checkRequireLoop env hrec an ps lk rest) ?_
    refine traceOnly_bind (traceOnly_tryCatch ?_ (fun e => ?_)) (fun ok => ?_)
    · refine traceOnly_bind (hrec file) (fun _ => ?_)
      refine traceOnly_bind (nonExec_getActionDetails env file) (fun d => ?_)
      refine traceOnly_bind (traceOnly_emit trivial) (fun _ => ?_)
      refine traceOnly_bind (traceOnly_liftExcept _) (fun b => ?_)
      exact traceOnly_ite (b = true)
        (traceOnly_bind (traceOnly_emit trivial) (fun _ => traceOnly_pure _))
        (traceOnly_pure _)
    · exact traceOnly_bind (traceOnly_emit trivial) (fun _ => traceOnly_pure _)
    · exact traceOnly_ite (ok = true) (nonExec_checkRequireLoop env hrec an ps lk rest)
        (traceOnly_pure _)

theorem nonExec_checkActionRequires (env : Env) :
    ∀ (fuel : Nat) (n : String), TraceOnly NonExec (checkActionRequires env fuel n)
  | 0, n => by
    unfold checkActionRequires
    exact traceOnly_throwErr _
  | Nat.succ fuel, n => by
    unfold checkActionRequires
    refine traceOnly_bind traceOnly_getS (fun st => ?_)
    refine traceOnly_ite (st.validScripts.contains n = true) (traceOnly_pure _) ?_
    refine traceOnly_bind (nonExec_getActionDetails env n) (fun d => ?_)
    refine traceOnly_bind
      (nonExec_checkRequireLoop env (fun f => nonExec_checkActionRequires env fuel f) _ _ _ _)
      (fun ok => ?_)
    exact traceOnly_ite (ok = true)
      (traceOnly_bind (traceOnly_modifyS _) (fun _ => traceOnly_pure _))
      (traceOnly_pure _)

theorem nonExec_loadLocalAction (env : Env) (fuel : Nat) (n : String) :
    TraceOnly NonExec (loadLocalAction env fuel n) := by
  unfold loadLocalAction
  refine traceOnly_ite (env.strictRequire = true) ?_ ?_
  · refine traceOnly_bind (nonExec_checkActionRequires env fuel n) (fun _ => ?_)
    exact traceOnly_bind (nonExec_getActionDetails env n) (fun d => traceOnly_pure _)
  · exact traceOnly_bind (nonExec_getActionDetails env n) (fun d => traceOnly_pure _)

theorem runWithoutVm_apply (env : Env) (c : String) (s : SState) :
    runWithoutVm env c s =
      ((match env.execNoVm c with | .ok _ => .ok () | .error e => .error (.js e)),
       s, [.runNoVm c]) := by
  unfold runWithoutVm
  rw [M.bind_eq, M.bindM_ok (show M.emit (.runNoVm c) s = (.ok (), s, [.runNoVm c]) from rfl)]
  cases h : env.execNoVm c with
  | ok a => simp [M.liftExcept, h, M.pureM]
  | error e => simp [M.liftExcept, h, M.throwErr]

theorem runInVm_apply (env : Env) (c d : String) (s : SState) :
    runInVm env c d s =
      ((match env.execVm c with | .ok _ => .ok () | .error e => .error (.js e)),
       s, [.runVm c d 5000]) := by
  unfold runInVm
  rw [M.bind_eq, M.bindM_ok (show M.emit (.runVm c d 5000) s = (.ok (), s, [.runVm c d 5000]) from rfl)]
  cases h : env.execVm c with
  | ok a => simp [M.liftExcept, h, M.pureM]
  | error e => simp [M.liftExcept, h, M.throwErr]

theorem getWorkspaceIdForBot_apply (env : Env) (b : String) (s : SState) :
    ∃ w s', getWorkspaceIdForBot env b s = (.ok w, s', []) := by
  cases h : s.botsWorkspaceIdsCache.lookup b with
  | some w =>
    refine ⟨w, s, ?_⟩
    simp [getWorkspaceIdForBot, Bind.bind, M.bindM, M.getS, h, M.pure_apply]
  | none =>
    refine ⟨env.workspaceIdOf b,
      { s with botsWorkspaceIdsCache := setAssoc b (env.workspaceIdOf b) s.botsWorkspaceIdsCache }, ?_⟩
    simp [getWorkspaceIdForBot, Bind.bind, M.bindM, M.getS, h, M.pure_apply, M.modifyS, M.pureM]

theorem runInActionServer_response (env : Env) (srv : ActionServer) (n args : String)
    (ev : IncomingEvent) (s : SState) (status : Nat) (rev : IncomingEvent)
    (h : env.httpOutcome (srv.baseUrl ++ "/action/run") = .response status rev) :
    ∃ s', runInActionServer env srv n args ev s =
      (.ok { rev with state := { rev.state with temp := { rev.state.temp with responseStatusCode := some status } } },
       s',
       [.httpPost (srv.baseUrl ++ "/action/run"),
        .createTask { eventId := ev.id, actionName := n, actionArgs := args,
                      actionServerId := srv.id, startedAt := env.now, endedAt := env.now,
                      status := .completed, failureReason := none }]) := by
  obtain ⟨w, s1, hw⟩ := getWorkspaceIdForBot_apply env ev.botId s
  refine ⟨s1, ?_⟩
  simp [runInActionServer, Bind.bind, M.bindM, hw, M.emit, h, M.pure_apply, M.pureM]

theorem runInActionServer_transport (env : Env) (srv : ActionServer) (n args : String)
    (ev : IncomingEvent) (s : SState) (code : String) (err : JsError)
    (h : env.httpOutcome (srv.baseUrl ++ "/action/run") = .transportError code err) :
    ∃ s', runInActionServer env srv n args ev s =
      (.error (.js err), s',
       [.httpPost (srv.baseUrl ++ "/action/run"),
        .createTask { eventId := ev.id, actionName := n, actionArgs := args,
                      actionServerId := srv.id, startedAt := env.now, endedAt := env.now,
                      status := .failed, failureReason := some ("axios:" ++ code) }]) := by
  obtain ⟨w, s1, hw⟩ := getWorkspaceIdForBot_apply env ev.botId s
  refine ⟨s1, ?_⟩
  simp [runInActionServer, Bind.bind, M.bindM, hw, M.emit, h, M.pure_apply, M.pureM, M.throwErr]

theorem runAction_ok_eq_body (env : Env) (fuel : Nat) (props : RunActionProps) (s : SState)
    (h : (runAction env fuel props s).1 = .ok ()) :
    runAction env fuel props s = runActionBody env fuel props s := by
  unfold runAction at h ⊢
  rcases hb : runActionBody env fuel props s with ⟨r, s1, t1⟩
  cases r with
  | ok a => rw [M.tryCatch_ok hb]
  | error e =>
    cases e with
    | fuelExhausted =>
      rw [M.tryCatch_fuel hb] at h
      exact absurd h (by simp)
    | js e0 =>
      rw [M.tryCatch_error hb (by simp)] at h
      simp [Bind.bind, M.bindM, M.emit, M.throwErr] at h
    | actionExecution m n st =>
      rw [M.tryCatch_error hb (by simp)] at h
      simp [Bind.bind, M.bindM, M.emit, M.throwErr] at h

/-- C2: every error thrown inside `runAction`'s body — action not
found, require-validation failure, sandbox error, remote transport
error — is caught exactly once at the router boundary and rethrown as
`ActionExecutionError` carrying the original error's message, the
action name, and the original stack; the caller observes only this
normalized shape, never the original error value or type. -/
theorem c2_runAction_error_normalized (env : Env) (fuel : Nat) (props : RunActionProps)
    (s : SState) (err : RuntimeError)
    (h : (runAction env fuel props s).1 = .error err) (hne : err ≠ .fuelExhausted) :
    ∃ inner : RuntimeError,
      (runActionBody env fuel props s).1 = .error inner ∧
      inner ≠ .fuelExhausted ∧
      err = .actionExecution inner.message props.actionName inner.stack := by
  unfold runAction at h
  rcases hb : runActionBody env fuel props s with ⟨r, s1, t1⟩
  cases r with
  | ok a =>
    rw [M.tryCatch_ok hb] at h
    simp at h
  | error e =>
    cases e with
    | fuelExhausted =>
      rw [M.tryCatch_fuel hb] at h
      simp at h
      exact absurd h.symm hne
    | js e0 =>
      rw [M.tryCatch_error hb (by simp)] at h
      refine ⟨.js e0, rfl, by simp, ?_⟩
      have h2 := h.symm
      simpa [Bind.bind, M.bindM, M.emit, M.throwErr, RuntimeError.message, RuntimeError.stack]
        using h2
    | actionExecution em en es =>
      rw [M.tryCatch_error hb (by simp)] at h
      refine ⟨.actionExecution em en es, rfl, by simp, ?_⟩
      have h2 := h.symm
      simpa [Bind.bind, M.bindM, M.emit, M.throwErr, RuntimeError.message, RuntimeError.stack]
        using h2

/-- C2 witness: a concrete failing input (missing action) where the
caller sees exactly the normalized `ActionExecutionError`. -/
theorem c2_witness :
    ∃ inner : RuntimeError,
      (runActionBody envBasic 10 propsMissing initState).1 = .error inner ∧
      inner ≠ .fuelExhausted ∧
      RuntimeError.actionExecution "Action \"nope\" not found" "nope" "findAction" =
        .actionExecution inner.message propsMissing.actionName inner.stack := by
  have h := c2_runAction_error_normalized envBasic 10 propsMissing initState
    (.actionExecution "Action \"nope\" not found" "nope" "findAction") (by rfl) (by simp)
  exact h

/-- C4: every remote-delegation attempt creates exactly one audit
task; a transport-level failure records status `failed` with a
failure reason derived from the transport error code, while any
received HTTP response — including an error status such as 500 —
records status `completed`. -/
theorem c4_remote_audit (env : Env) (srv : ActionServer) (n args : String)
    (ev : IncomingEvent) (s : SState) :
    ((runInActionServer env srv n args ev s).2.2.countP
        (fun eff => match eff with | Effect.createTask _ => true | _ => false) = 1)
    ∧ (∀ code err, env.httpOutcome (srv.baseUrl ++ "/action/run") = .transportError code err →
        (∃ tk, Effect.createTask tk ∈ (runInActionServer env srv n args ev s).2.2 ∧
          tk.status = .failed ∧ tk.failureReason = some ("axios:" ++ code)) ∧
        (runInActionServer env srv n args ev s).1 = .error (.js err))
    ∧ (∀ status rev, env.httpOutcome (srv.baseUrl ++ "/action/run") = .response status rev →
        ∃ tk, Effect.createTask tk ∈ (runInActionServer env srv n args ev s).2.2 ∧
          tk.status = .completed ∧ tk.failureReason = none) := by
  cases hout : env.httpOutcome (srv.baseUrl ++ "/action/run") with
  | transportError code err =>
    obtain ⟨s', hrun⟩ := runInActionServer_transport env srv n args ev s code err hout
    refine ⟨?_, ?_, ?_⟩
    · rw [hrun]
      rfl
    · intro code2 err2 h2
      cases h2
      rw [hrun]
      exact ⟨⟨{ eventId := ev.id, actionName := n, actionArgs := args, actionServerId := srv.id,
                startedAt := env.now, endedAt := env.now, status := .failed,
                failureReason := some ("axios:" ++ code) }, by simp, rfl, rfl⟩, rfl⟩
    · intro status rev h2
      cases h2
  | response status rev =>
    obtain ⟨s', hrun⟩ := runInActionServer_response env srv n args ev s status rev hout
    refine ⟨?_, ?_, ?_⟩
    · rw [hrun]
      rfl
    · intro code2 err2 h2
      cases h2
    · intro status2 rev2 h2
      cases h2
      rw [hrun]
      exact ⟨{ eventId := ev.id, actionName := n, actionArgs := args, actionServerId := srv.id,
               startedAt := env.now, endedAt := env.now, status := .completed,
               failureReason := none }, by simp, rfl, rfl⟩

/-- C4 witness: an HTTP 500 response still records exactly one
`completed` audit task. -/
theorem c4_witness :
    ((runInActionServer envRemote500 srv1 "nlu/intent" "{}" sampleEvent initState).2.2.countP
        (fun eff => match eff with | Effect.createTask _ => true | _ => false) = 1)
    ∧ ∃ tk, Effect.createTask tk ∈
        (runInActionServer envRemote500 srv1 "nlu/intent" "{}" sampleEvent initState).2.2 ∧
        tk.status = .completed ∧ tk.failureReason = none := by
  have h := c4_remote_audit envRemote500 srv1 "nlu/intent" "{}" sampleEvent initState
  exact ⟨h.1, h.2.2 500 remoteEvent rfl⟩

/-- C3 (amended): on successful remote delegation,
`runInActionServer` produces the event returned by the remote server
with `state.temp.responseStatusCode` set to the observed HTTP status,
but `runAction` discards it — its own successful result is the unit
value (the TypeScript method returns `Promise<void>`), with the same
final state and trace; the remote event is never handed back to the
caller. -/
theorem c3_amended_remote_event_discarded (env : Env) (fuel : Nat) (props : RunActionProps)
    (s : SState) (srv : ActionServer) (status : Nat) (rev : IncomingEvent)
    (hsrv : props.actionServer = some srv)
    (hout : env.httpOutcome (srv.baseUrl ++ "/action/run") = .response status rev) :
    ∃ s' t,
      runInActionServer env srv props.actionName props.actionArgs props.incomingEvent s =
        (.ok { rev with state := { rev.state with temp := { rev.state.temp with responseStatusCode := some status } } },
         s', t) ∧
      runAction env fuel props s = (.ok (), s', t) := by
  obtain ⟨s', hrun⟩ :=
    runInActionServer_response env srv props.actionName props.actionArgs props.incomingEvent s status rev hout
  refine ⟨s', _, hrun, ?_⟩
  unfold runAction runActionBody
  rw [hsrv]
  have hbody : ((runInActionServer env srv props.actionName props.actionArgs props.incomingEvent :
        M IncomingEvent) >>= fun _ev => pure ()) s =
      (.ok (), s',
       [.httpPost (srv.baseUrl ++ "/action/run"),
        .createTask { eventId := props.incomingEvent.id, actionName := props.actionName,
                      actionArgs := props.actionArgs, actionServerId := srv.id,
                      startedAt := env.now, endedAt := env.now,
                      status := .completed, failureReason := none }]) := by
    rw [M.bind_eq, M.bindM_ok hrun]
    simp [M.pure_apply]
  rw [M.tryCatch_ok hbody]

/-- C3 counterexample: a successful remote delegation whose
`runAction` result is the unit value, not the remote server's event;
the remote event (carrying the observed status code) differs from the
caller's event object, which `runAction` leaves untouched. -/
theorem c3_counterexample :
    (runAction envRemote500 10 propsRemote initState).1 = .ok () ∧
    (runInActionServer envRemote500 srv1 "nlu/intent" "{}" sampleEvent initState).1 =
      .ok { id := "evt-remote", botId := "bot1",
            state := { temp := { responseStatusCode := some 500 } } } ∧
    ({ id := "evt-remote", botId := "bot1",
       state := { temp := { responseStatusCode := some 500 } } } : IncomingEvent)
      ≠ propsRemote.incomingEvent := by
  refine ⟨rfl, rfl, ?_⟩
  intro h
  exact absurd (congrArg IncomingEvent.id h) (by decide)

/-- C3 witness for the amended theorem, at the concrete
HTTP-500 delegation scenario. -/
theorem c3_amended_witness :
    ∃ s' t,
      runInActionServer envRemote500 srv1 propsRemote.actionName propsRemote.actionArgs
          propsRemote.incomingEvent initState =
        (.ok { remoteEvent with state := { remoteEvent.state with
                 temp := { remoteEvent.state.temp with responseStatusCode := some 500 } } },
         s', t) ∧
      runAction envRemote500 10 propsRemote initState = (.ok (), s', t) :=
  c3_amended_remote_event_discarded envRemote500 10 propsRemote initState srv1 500 remoteEvent
    rfl rfl

theorem nonExec_ne_runVm {eff : Effect} (h : NonExec eff) (c d : String) (m : Nat) :
    eff ≠ .runVm c d m := by
  cases eff <;> simp [NonExec] at h ⊢

theorem nonExec_ne_runNoVm {eff : Effect} (h : NonExec eff) (c : String) :
    eff ≠ .runNoVm c := by
  cases eff <;> simp [NonExec] at h ⊢

theorem nonExec_ne_httpPost {eff : Effect} (h : NonExec eff) (u : String) :
    eff ≠ .httpPost u := by
  cases eff <;> simp [NonExec] at h ⊢

theorem runTrustedCode_ok_trace (env : Env) (fuel : Nat) (n : String) (s1 : SState)
    (h : (runTrustedCode env fuel n s1).1 = .ok ()) :
    ∃ code s2 t2, runTrustedCode env fuel n s1 = (.ok (), s2, t2 ++ [.runNoVm code]) ∧
      ∀ eff ∈ t2, NonExec eff := by
  unfold runTrustedCode at h ⊢
  rcases hload : loadLocalAction env fuel n s1 with ⟨rl, s2, t2⟩
  have ht2 : ∀ eff ∈ t2, NonExec eff := by
    intro eff he
    exact nonExec_loadLocalAction env fuel n s1 eff (by rw [hload]; exact he)
  cases rl with
  | error e =>
    rw [M.bind_eq, M.bindM_error hload] at h
    simp at h
  | ok p =>
    rcases p with ⟨code, dir⟩
    rw [M.bind_eq, M.bindM_ok hload] at h ⊢
    dsimp only at h ⊢
    rw [runWithoutVm_apply] at h ⊢
    cases hexec : env.execNoVm code with
    | ok u => exact ⟨code, s2, t2, rfl, ht2⟩
    | error e =>
      rw [hexec] at h
      simp at h

theorem runLegacyAction_ok_trace (env : Env) (fuel : Nat) (n : String) (s1 : SState)
    (h : (runLegacyAction env fuel n s1).1 = .ok ()) :
    ∃ code dir s2 t2, runLegacyAction env fuel n s1 = (.ok (), s2, t2 ++ [.runVm code dir 5000]) ∧
      ∀ eff ∈ t2, NonExec eff := by
  unfold runLegacyAction at h ⊢
  rcases hload : loadLocalAction env fuel n s1 with ⟨rl, s2, t2⟩
  have ht2 : ∀ eff ∈ t2, NonExec eff := by
    intro eff he
    exact nonExec_loadLocalAction env fuel n s1 eff (by rw [hload]; exact he)
  cases rl with
  | error e =>
    rw [M.bind_eq, M.bindM_error hload] at h
    simp at h
  | ok p =>
    rcases p with ⟨code, dir⟩
    rw [M.bind_eq, M.bindM_ok hload] at h ⊢
    dsimp only at h ⊢
    rw [runInVm_apply] at h ⊢
    cases hexec : env.execVm code with
    | ok u => exact ⟨code, dir, s2, t2, rfl, ht2⟩
    | error e =>
      rw [hexec] at h
      simp at h

/-- C1: for every successful `runAction`: when an action server is
supplied in the request, execution is delegated over HTTP regardless
of trust (no in-process execution occurs); otherwise a trusted action
runs in-process without a VM, and an untrusted one runs inside the
sandbox VM, whose timeout is 5000 ms. -/
theorem c1_router_strategy (env : Env) (fuel : Nat) (props : RunActionProps) (s : SState)
    (hok : (runAction env fuel props s).1 = .ok ()) :
    (∀ srv, props.actionServer = some srv →
      Effect.httpPost (srv.baseUrl ++ "/action/run") ∈ (runAction env fuel props s).2.2 ∧
      (∀ c, Effect.runNoVm c ∉ (runAction env fuel props s).2.2) ∧
      (∀ c d m, Effect.runVm c d m ∉ (runAction env fuel props s).2.2))
    ∧ (props.actionServer = none →
      ∀ trusted s1 t1, isTrustedAction env props.actionName s = (.ok trusted, s1, t1) →
        ((trusted = true →
          (∃ c, Effect.runNoVm c ∈ (runAction env fuel props s).2.2) ∧
          (∀ c d m, Effect.runVm c d m ∉ (runAction env fuel props s).2.2) ∧
          (∀ u, Effect.httpPost u ∉ (runAction env fuel props s).2.2)) ∧
         (trusted = false →
          (∃ c d, Effect.runVm c d 5000 ∈ (runAction env fuel props s).2.2) ∧
          (∀ c d m, Effect.runVm c d m ∈ (runAction env fuel props s).2.2 → m = 5000) ∧
          (∀ c, Effect.runNoVm c ∉ (runAction env fuel props s).2.2) ∧
          (∀ u, Effect.httpPost u ∉ (runAction env fuel props s).2.2)))) := by
  have heq := runAction_ok_eq_body env fuel props s hok
  rw [heq] at hok ⊢
  constructor
  · intro srv hsrv
    cases hout : env.httpOutcome (srv.baseUrl ++ "/action/run") with
    | transportError code err =>
      obtain ⟨s', hrun⟩ := runInActionServer_transport env srv props.actionName
        props.actionArgs props.incomingEvent s code err hout
      have hbody : runActionBody env fuel props s =
          (.error (.js err), s',
           [.httpPost (srv.baseUrl ++ "/action/run"),
            .createTask { eventId := props.incomingEvent.id, actionName := props.actionName,
                          actionArgs := props.actionArgs, actionServerId := srv.id,
                          startedAt := env.now, endedAt := env.now,
                          status := .failed, failureReason := some ("axios:" ++ code) }]) := by
        unfold runActionBody
        rw [hsrv]
        show M.bindM (runInActionServer env srv props.actionName props.actionArgs
          props.incomingEvent) (fun _ev => pure ()) s = _
        rw [M.bindM_error hrun]
      rw [hbody] at hok
      simp at hok
    | response status rev =>
      obtain ⟨s', hrun⟩ := runInActionServer_response env srv props.actionName
        props.actionArgs props.incomingEvent s status rev hout
      have hbody : runActionBody env fuel props s =
          (.ok (), s',
           [.httpPost (srv.baseUrl ++ "/action/run"),
            .createTask { eventId := props.incomingEvent.id, actionName := props.actionName,
                          actionArgs := props.actionArgs, actionServerId := srv.id,
                          startedAt := env.now, endedAt := env.now,
                          status := .completed, failureReason := none }] ++ []) := by
        unfold runActionBody
        rw [hsrv]
        show M.bindM (runInActionServer env srv props.actionName props.actionArgs
          props.incomingEvent) (fun _ev => pure ()) s = _
        rw [M.bindM_ok hrun]
        rfl
      rw [hbody]
      refine ⟨by simp, ?_, ?_⟩
      · intro c hmem
        simp at hmem
      · intro c d m hmem
        simp at hmem
  · intro hnone trusted s1 t1 htr
    have ht1 : ∀ eff ∈ t1, NonExec eff := fun eff he =>
      nonExec_isTrustedAction env props.actionName s eff (by rw [htr]; exact he)
    cases trusted with
    | true =>
      have hbody1 : runActionBody env fuel props s =
          ((runTrustedCode env fuel props.actionName s1).1,
           (runTrustedCode env fuel props.actionName s1).2.1,
           t1 ++ (runTrustedCode env fuel props.actionName s1).2.2) := by
        unfold runActionBody
        rw [hnone]
        show M.bindM (isTrustedAction env props.actionName)
          (fun trusted => if trusted = true then runTrustedCode env fuel props.actionName
            else runLegacyAction env fuel props.actionName) s = _
        rw [M.bindM_ok htr]
        rfl
      have hok2 : (runTrustedCode env fuel props.actionName s1).1 = .ok () := by
        rw [hbody1] at hok
        exact hok
      obtain ⟨code, s2, t2, hrun, ht2⟩ := runTrustedCode_ok_trace env fuel props.actionName s1 hok2
      have hbody2 : runActionBody env fuel props s = (.ok (), s2, t1 ++ (t2 ++ [.runNoVm code])) := by
        rw [hbody1, hrun]
      refine ⟨fun _ => ⟨⟨code, ?_⟩, ?_, ?_⟩, fun hfalse => by simp at hfalse⟩
      · rw [hbody2]
        simp
      · intro c d m hmem
        rw [hbody2] at hmem
        rcases List.mem_append.mp hmem with h1 | h2
        · exact ht1 _ h1
        · rcases List.mem_append.mp h2 with h3 | h4
          · exact ht2 _ h3
          · simp at h4
      · intro u hmem
        rw [hbody2] at hmem
        rcases List.mem_append.mp hmem with h1 | h2
        · exact ht1 _ h1
        · rcases List.mem_append.mp h2 with h3 | h4
          · exact ht2 _ h3
          · simp at h4
    | false =>
      have hbody1 : runActionBody env fuel props s =
          ((runLegacyAction env fuel props.actionName s1).1,
           (runLegacyAction env fuel props.actionName s1).2.1,
           t1 ++ (runLegacyAction env fuel props.actionName s1).2.2) := by
        unfold runActionBody
        rw [hnone]
        show M.bindM (isTrustedAction env props.actionName)
          (fun trusted => if trusted = true then runTrustedCode env fuel props.actionName
            else runLegacyAction env fuel props.actionName) s = _
        rw [M.bindM_ok htr]
        rfl
      have hok2 : (runLegacyAction env fuel props.actionName s1).1 = .ok () := by
        rw [hbody1] at hok
        exact hok
      obtain ⟨code, dir, s2, t2, hrun, ht2⟩ :=
        runLegacyAction_ok_trace env fuel props.actionName s1 hok2
      have hbody2 : runActionBody env fuel props s =
          (.ok (), s2, t1 ++ (t2 ++ [.runVm code dir 5000])) := by
        rw [hbody1, hrun]
      refine ⟨fun htrue => by simp at htrue, fun _ => ⟨⟨code, dir, ?_⟩, ?_, ?_, ?_⟩⟩
      · rw [hbody2]
        simp
      · intro c d m hmem
        rw [hbody2] at hmem
        rcases List.mem_append.mp hmem with h1 | h2
        · exact absurd trivial (by simpa [NonExec] using ht1 _ h1)
        · rcases List.mem_append.mp h2 with h3 | h4
          · exact absurd trivial (by simpa [NonExec] using ht2 _ h3)
          · simp at h4
            exact h4.2.2
      · intro c hmem
        rw [hbody2] at hmem
        rcases List.mem_append.mp hmem with h1 | h2
        · exact ht1 _ h1
        · rcases List.mem_append.mp h2 with h3 | h4
          · exact ht2 _ h3
          · simp at h4
      · intro u hmem
        rw [hbody2] at hmem
        rcases List.mem_append.mp hmem with h1 | h2
        · exact ht1 _ h1
        · rcases List.mem_append.mp h2 with h3 | h4
          · exact ht2 _ h3
          · simp at h4

/-- C1 witness: the untrusted local action of `envBasic` runs in the
sandbox VM with the 5000 ms timeout. -/
theorem c1_witness :
    ∃ c d, Effect.runVm c d 5000 ∈ (runAction envBasic 10 propsSandbox initState).2.2 := by
  have h := c1_router_strategy envBasic 10 propsSandbox initState rfl
  have htr : isTrustedAction envBasic propsSandbox.actionName initState =
      (.ok false,
       (isTrustedAction envBasic propsSandbox.actionName initState).2.1,
       (isTrustedAction envBasic propsSandbox.actionName initState).2.2) := rfl
  exact ((h.2 rfl false _ _ htr).2 rfl).1

/-- C5 counterexample: in strict-require mode, with an action whose
script requires the unresolvable escape `../../../etc/hosts`,
`checkActionRequires` returns `false`, and yet `runAction` on that
action completes successfully and executes the script in the VM —
`loadLocalAction` discards the boolean, so execution proceeds. -/
theorem c5_counterexample :
    (checkActionRequires envEscape 10 "hello" initState).1 = .ok false ∧
    (runAction envEscape 10 propsEscape initState).1 = .ok () ∧
    Effect.runVm "CODE_hello" "/data/global/actions/hello.js" 5000 ∈
      (runAction envEscape 10 propsEscape initState).2.2 := by
  refine ⟨rfl, rfl, ?_⟩
  have h : (runAction envEscape 10 propsEscape initState).2.2 =
      [Effect.readGlobalFile "hello.js",
       Effect.readGlobalFile "hello.js",
       Effect.logError "There is an issue with required file ../../../etc/hosts.js in action hello.js",
       Effect.readGlobalFile "hello.js",
       Effect.runVm "CODE_hello" "/data/global/actions/hello.js" 5000] := rfl
  rw [h]
  simp

/-- C5 (amended): the escaping require makes `checkActionRequires`
return `false` and the escaping target's contents are never touched —
no content-store read and no require-from-string execution of
`../../../etc/hosts` appears in the trace of either the check or the
whole `runAction` — but `loadLocalAction` ignores the returned
boolean, so execution of the action still proceeds (the sandbox run of
the action's own script appears in the trace). -/
theorem c5_amended_check_false_but_run_proceeds :
    (checkActionRequires envEscape 10 "hello" initState).1 = .ok false ∧
    (∀ eff ∈ (checkActionRequires envEscape 10 "hello" initState).2.2,
       eff ≠ .readGlobalFile "../../../etc/hosts" ∧ eff ≠ .readLocalFile "../../../etc/hosts" ∧
       eff ≠ .requireString "../../../etc/hosts") ∧
    (∀ eff ∈ (runAction envEscape 10 propsEscape initState).2.2,
       eff ≠ .readGlobalFile "../../../etc/hosts" ∧ eff ≠ .readLocalFile "../../../etc/hosts" ∧
       eff ≠ .requireString "../../../etc/hosts") ∧
    (∃ c d m, Effect.runVm c d m ∈ (runAction envEscape 10 propsEscape initState).2.2) := by
  have h1 : (checkActionRequires envEscape 10 "hello" initState).2.2 =
      [Effect.readGlobalFile "hello.js",
       Effect.readGlobalFile "hello.js",
       Effect.logError "There is an issue with required file ../../../etc/hosts.js in action hello.js"] := rfl
  have h2 : (runAction envEscape 10 propsEscape initState).2.2 =
      [Effect.readGlobalFile "hello.js",
       Effect.readGlobalFile "hello.js",
       Effect.logError "There is an issue with required file ../../../etc/hosts.js in action hello.js",
       Effect.readGlobalFile "hello.js",
       Effect.runVm "CODE_hello" "/data/global/actions/hello.js" 5000] := rfl
  refine ⟨rfl, ?_, ?_, ⟨"CODE_hello", "/data/global/actions/hello.js", 5000, ?_⟩⟩
  · rw [h1]
    decide
  · rw [h2]
    decide
  · rw [h2]
    simp

/-- C9: invalidation events whose key contains `/actions`
(case-insensitive) drive a leading-edge debounced cache clear with a
2000 ms window: a non-matching key does nothing; the first matching
event of a burst clears immediately; a matching event within the
window is dropped (no trailing fire — the state only remembers the
last call time); clearing empties all five caches; and concretely,
5 matching events within 500 ms produce exactly one clear while a
further event 3 s after the first produces exactly one more. -/
theorem c9_debounced_invalidation :
    (∀ t key last st n, keyMatchesActions key = false →
        invalidationStep (t, key) (last, st, n) = (last, st, n))
    ∧ (∀ t key st n, keyMatchesActions key = true →
        invalidationStep (t, key) (none, st, n) = (some t, clearCache st, n + 1))
    ∧ (∀ t l key st n, keyMatchesActions key = true → DEBOUNCE_DELAY ≤ t - l →
        invalidationStep (t, key) (some l, st, n) = (some t, clearCache st, n + 1))
    ∧ (∀ t l key st n, keyMatchesActions key = true → t - l < DEBOUNCE_DELAY →
        invalidationStep (t, key) (some l, st, n) = (some t, st, n))
    ∧ (∀ st, clearCache st = initState)
    ∧ (processInvalidations burst5 (none, dirtyState, 0)).2.2 = 1
    ∧ (processInvalidations (burst5 ++ [(3000, burstKey)]) (none, dirtyState, 0)).2.2 = 2 := by
  refine ⟨?_, ?_, ?_, ?_, fun st => rfl, rfl, rfl⟩
  · intro t key last st n hk
    simp [invalidationStep, hk]
  · intro t key st n hk
    simp [invalidationStep, hk, debounceStep]
  · intro t l key st n hk hge
    simp [invalidationStep, hk, debounceStep, hge]
  · intro t l key st n hk hlt
    simp [invalidationStep, hk, debounceStep, Nat.not_le.mpr hlt]

/-- C6: `isTrustedAction` succeeds whenever the global listing does,
and answers `true` exactly when the segment of the name before the
first `/` is in the fixed built-in allow-list AND an action with that
name exists in the global catalog; local-only actions are never
trusted, since only the global catalog is consulted. -/
theorem c6_trust_iff (env : Env) (n : String) (s : SState)
    (g : List ActionDefinition) (s1 : SState) (t1 : List Effect)
    (hg : listGlobalActions env s = (.ok g, s1, t1)) :
    (∃ b, (isTrustedAction env n s).1 = .ok b) ∧
    ((isTrustedAction env n s).1 = .ok true ↔
      (firstSegment n ∈ BUILTIN_MODULES ∧ n ∈ g.map ActionDefinition.name)) := by
  have hts : listTrustedActions env s =
      (.ok (g.filter (fun a => BUILTIN_MODULES.contains (firstSegment a.name))), s1, t1 ++ []) := by
    unfold listTrustedActions
    rw [M.bind_eq, M.bindM_ok hg]
    rfl
  have hit : isTrustedAction env n s =
      (.ok (((g.filter (fun a => BUILTIN_MODULES.contains (firstSegment a.name))).map
        (fun a => a.name)).contains n), s1, (t1 ++ []) ++ []) := by
    unfold isTrustedAction
    rw [M.bind_eq, M.bindM_ok hts]
    rfl
  rw [hit]
  refine ⟨⟨_, rfl⟩, ?_⟩
  simp only [Except.ok.injEq]
  rw [List.elem_iff]
  simp only [List.mem_map, List.mem_filter]
  constructor
  · rintro ⟨a, ⟨hag, hpa⟩, hname⟩
    subst hname
    exact ⟨List.elem_iff.mp hpa, a, hag, rfl⟩
  · rintro ⟨hseg, a, hag, hname⟩
    refine ⟨a, ⟨hag, ?_⟩, hname⟩
    rw [hname]
    exact List.elem_iff.mpr hseg

/-- C6 witness: `nlu/detect-intent` exists only in the local catalog
of `envLocalOnly`, and is not trusted. -/
theorem c6_witness :
    (hasAction envLocalOnly "nlu/detect-intent" initState).1 = .ok true ∧
    ¬((isTrustedAction envLocalOnly "nlu/detect-intent" initState).1 = .ok true) := by
  refine ⟨rfl, ?_⟩
  intro h
  have hg : listGlobalActions envLocalOnly initState =
      (.ok [], (listGlobalActions envLocalOnly initState).2.1,
       (listGlobalActions envLocalOnly initState).2.2) := rfl
  have h2 := (c6_trust_iff envLocalOnly "nlu/detect-intent" initState [] _ _ hg).2.mp h
  simp at h2

theorem c7_loop_fuel (f : Nat) (s2 : SState) (t2 : List Effect)
    (hin : checkActionRequires envCycle f "a" stCycle = (.error .fuelExhausted, s2, t2)) :
    checkRequireLoop envCycle (fun file => checkActionRequires envCycle f file)
      "a" "/data/global/actions/a.js" [] ["a"] stCycle = (.error .fuelExhausted, s2, t2) := by
  show (M.bindM (M.tryCatch (M.bindM (checkActionRequires envCycle f "a") (fun _ =>
      M.bindM (getActionDetails envCycle "a") (fun d =>
        M.bindM (M.emit (.requireString "a")) (fun _ =>
          M.bindM (M.liftExcept (envCycle.requireFromString d.code)) (fun isEmptyExports =>
            if isEmptyExports then
              M.bindM (M.emit (.logWarn ("Your required file (a) looks empty. Missing module.exports ? ")))
                (fun _ => pure true)
            else pure true)))))
    (fun _err => M.bindM (M.emit (.logError ("There is an issue with required file a.js in action a.js")))
      (fun _ => pure false)))
    (fun ok => if ok then
        checkRequireLoop envCycle (fun file => checkActionRequires envCycle f file)
          "a" "/data/global/actions/a.js" [] []
      else pure false) stCycle) = (.error .fuelExhausted, s2, t2)
  have hbodyin : M.bindM (checkActionRequires envCycle f "a") (fun _ =>
      M.bindM (getActionDetails envCycle "a") (fun d =>
        M.bindM (M.emit (.requireString "a")) (fun _ =>
          M.bindM (M.liftExcept (envCycle.requireFromString d.code)) (fun isEmptyExports =>
            if isEmptyExports then
              M.bindM (M.emit (.logWarn ("Your required file (a) looks empty. Missing module.exports ? ")))
                (fun _ => pure true)
            else pure true)))) stCycle
      = (.error .fuelExhausted, s2, t2) := M.bindM_error hin
  rw [M.bindM_error (M.tryCatch_fuel hbodyin)]

theorem c7_step (f : Nat)
    (ih : (checkActionRequires envCycle f "a" stCycle).1 = .error .fuelExhausted) :
    (checkActionRequires envCycle (f + 1) "a" stCycle).1 = .error .fuelExhausted := by
  rcases hin : checkActionRequires envCycle f "a" stCycle with ⟨r, s2, t2⟩
  rw [hin] at ih
  simp at ih
  subst ih
  show (M.bindM M.getS (fun st =>
    if st.validScripts.contains "a" then pure true
    else M.bindM (getActionDetails envCycle "a") (fun d =>
      M.bindM (checkRequireLoop envCycle (fun file => checkActionRequires envCycle f file)
        "a" d.dirPath d.lookups (envCycle.extractRequiredFiles d.code))
        (fun ok => if ok then
            M.bindM (M.modifyS (fun st => { st with validScripts := "a" :: st.validScripts }))
              (fun _ => pure true)
          else pure false))) stCycle).1 = .error .fuelExhausted
  rw [M.bindM_ok (show M.getS stCycle = (.ok stCycle, stCycle, []) from rfl)]
  show (M.bindM (getActionDetails envCycle "a") (fun d =>
      M.bindM (checkRequireLoop envCycle (fun file => checkActionRequires envCycle f file)
        "a" d.dirPath d.lookups (envCycle.extractRequiredFiles d.code))
        (fun ok => if ok then
            M.bindM (M.modifyS (fun st => { st with validScripts := "a" :: st.validScripts }))
              (fun _ => pure true)
          else pure false)) stCycle).1 = .error .fuelExhausted
  rw [M.bindM_ok (show getActionDetails envCycle "a" stCycle =
    (.ok { code := "CODE_a", dirPath := "/data/global/actions/a.js", lookups := [],
           action := { name := "a", isRemote := false, location := .global, legacy := true,
                       metadata := some "meta" } },
     stCycle, [Effect.readGlobalFile "a.js"]) from rfl)]
  show (M.bindM (checkRequireLoop envCycle (fun file => checkActionRequires envCycle f file)
        "a" "/data/global/actions/a.js" [] ["a"])
      (fun ok => if ok then
          M.bindM (M.modifyS (fun st => { st with validScripts := "a" :: st.validScripts }))
            (fun _ => pure true)
        else pure false) stCycle).1 = .error .fuelExhausted
  rw [M.bindM_error (c7_loop_fuel f s2 t2 hin)]

/-- C7: the claim fails on the code — `checkActionRequires` does not
terminate on a cyclic require graph.  On the self-referential
catalogued action `a` of `envCycle` (whose script requires `a`, not
resolvable on the file system), the recursion never completes: for
every recursion budget the computation runs out of fuel, because
`_validScripts` is written only after the require loop has finished,
so no in-progress marker ever breaks the cycle. -/
theorem c7_cycle_diverges (fuel : Nat) :
    (checkActionRequires envCycle fuel "a" initState).1 = .error .fuelExhausted := by
  have key : ∀ f : Nat, (checkActionRequires envCycle f "a" stCycle).1 = .error .fuelExhausted := by
    intro f
    induction f with
    | zero => rfl
    | succ f ih => exact c7_step f ih
  cases fuel with
  | zero => rfl
  | succ f =>
    rcases hin : checkActionRequires envCycle f "a" stCycle with ⟨r, s2, t2⟩
    have ih := key f
    rw [hin] at ih
    simp at ih
    subst ih
    show (M.bindM M.getS (fun st =>
      if st.validScripts.contains "a" then pure true
      else M.bindM (getActionDetails envCycle "a") (fun d =>
        M.bindM (checkRequireLoop envCycle (fun file => checkActionRequires envCycle f file)
          "a" d.dirPath d.lookups (envCycle.extractRequiredFiles d.code))
          (fun ok => if ok then
              M.bindM (M.modifyS (fun st => { st with validScripts := "a" :: st.validScripts }))
                (fun _ => pure true)
            else pure false))) initState).1 = .error .fuelExhausted
    rw [M.bindM_ok (show M.getS initState = (.ok initState, initState, []) from rfl)]
    show (M.bindM (getActionDetails envCycle "a") (fun d =>
        M.bindM (checkRequireLoop envCycle (fun file => checkActionRequires envCycle f file)
          "a" d.dirPath d.lookups (envCycle.extractRequiredFiles d.code))
          (fun ok => if ok then
              M.bindM (M.modifyS (fun st => { st with validScripts := "a" :: st.validScripts }))
                (fun _ => pure true)
            else pure false)) initState).1 = .error .fuelExhausted
    rw [M.bindM_ok (show getActionDetails envCycle "a" initState =
      (.ok { code := "CODE_a", dirPath := "/data/global/actions/a.js", lookups := [],
             action := { name := "a", isRemote := false, location := .global, legacy := true,
                         metadata := some "meta" } },
       stCycle, [Effect.readGlobalFile "a.js", Effect.readGlobalFile "a.js"]) from rfl)]
    show (M.bindM (checkRequireLoop envCycle (fun file => checkActionRequires envCycle f file)
          "a" "/data/global/actions/a.js" [] ["a"])
        (fun ok => if ok then
            M.bindM (M.modifyS (fun st => { st with validScripts := "a" :: st.validScripts }))
              (fun _ => pure true)
          else pure false) stCycle).1 = .error .fuelExhausted
    rw [M.bindM_error (c7_loop_fuel f s2 t2 hin)]

theorem getActionDefinition_proj (env : Env) (file : String) (loc : ActionLocation)
    (s : SState) {d : ActionDefinition} {s2 : SState} {t : List Effect}
    (h : getActionDefinition env file loc true s = (.ok d, s2, t)) :
    d.name = stripActionExt file ∧ d.location = loc ∧ d.legacy = !includesHttpJs file := by
  have h2 : M.bindM (getActionScript env (bareDef file loc))
      (fun script => pure { bareDef file loc with metadata := some (env.extractMetadata script) }) s
      = (.ok d, s2, t) := h
  rcases hs : getActionScript env (bareDef file loc) s with ⟨r, s1, t1⟩
  cases r with
  | error e =>
    rw [M.bindM_error hs] at h2
    simp at h2
  | ok script =>
    rw [M.bindM_ok hs] at h2
    rw [Prod.mk.injEq, Prod.mk.injEq] at h2
    obtain ⟨hx, -, -⟩ := h2
    simp only [M.pure_apply, Except.ok.injEq] at hx
    subst hx
    exact ⟨rfl, rfl, rfl⟩

theorem mapM_loop_actionDef_proj (env : Env) (loc : ActionLocation) :
    ∀ (files : List String) (acc : List ActionDefinition) (s : SState)
      (res : List ActionDefinition) (s2 : SState) (t : List Effect),
      List.mapM.loop (fun f => getActionDefinition env f loc true) files acc s = (.ok res, s2, t) →
      res.map (fun a => (a.name, a.location, a.legacy)) =
        (acc.reverse.map (fun a => (a.name, a.location, a.legacy))) ++
          files.map (fun f => (stripActionExt f, loc, !includesHttpJs f))
  | [], acc, s, res, s2, t, h => by
    unfold List.mapM.loop at h
    have h2 : (Except.ok acc.reverse, s, ([] : List Effect)) =
        ((.ok res, s2, t) : (Except RuntimeError (List ActionDefinition)) × SState × List Effect) := h
    rw [Prod.mk.injEq, Prod.mk.injEq] at h2
    obtain ⟨hx, -, -⟩ := h2
    simp only [Except.ok.injEq] at hx
    subst hx
    simp
  | f :: fs, acc, s, res, s2, t, h => by
    unfold List.mapM.loop at h
    have h2 : M.bindM (getActionDefinition env f loc true)
        (fun d => List.mapM.loop (fun f => getActionDefinition env f loc true) fs (d :: acc)) s
        = (.ok res, s2, t) := h
    rcases hd : getActionDefinition env f loc true s with ⟨r, s1, t1⟩
    cases r with
    | error e =>
      rw [M.bindM_error hd] at h2
      simp at h2
    | ok d =>
      rw [M.bindM_ok hd] at h2
      rcases hloop : List.mapM.loop (fun f => getActionDefinition env f loc true) fs (d :: acc) s1
        with ⟨r2, s3, t3⟩
      rw [hloop] at h2
      cases r2 with
      | error e2 => simp at h2
      | ok res2 =>
        rw [Prod.mk.injEq, Prod.mk.injEq] at h2
        obtain ⟨hx, -, -⟩ := h2
        simp only [Except.ok.injEq] at hx
        subst hx
        have hrec := mapM_loop_actionDef_proj env loc fs (d :: acc) s1 res2 s3 t3 hloop
        obtain ⟨hn, hl, hg⟩ := getActionDefinition_proj env f loc s hd
        rw [hrec]
        simp [hn, hl, hg]

theorem listGlobalActions_proj (env : Env) (lc : Option (List ActionDefinition))
    (sc : List (String × String)) (vs : List String) (bw : List (String × String))
    {g : List ActionDefinition} {s2 : SState} {t : List Effect}
    (h : listGlobalActions env ⟨none, lc, sc, vs, bw⟩ = (.ok g, s2, t)) :
    g.map (fun a => (a.name, a.location, a.legacy)) =
      (env.globalFiles.filter enabled).map
        (fun f => (stripActionExt f, ActionLocation.global, !includesHttpJs f)) := by
  have h2 : M.bindM (List.mapM.loop (fun f => getActionDefinition env f .global true)
      (env.globalFiles.filter enabled) [])
      (fun actions => M.bindM (M.modifyS (fun st => { st with globalActionsCache := some actions }))
        (fun _ => pure actions)) ⟨none, lc, sc, vs, bw⟩ = (.ok g, s2, t) := h
  rcases hloop : List.mapM.loop (fun f => getActionDefinition env f .global true)
      (env.globalFiles.filter enabled) [] ⟨none, lc, sc, vs, bw⟩ with ⟨r, s1, t1⟩
  cases r with
  | error e =>
    rw [M.bindM_error hloop] at h2
    simp at h2
  | ok as2 =>
    rw [M.bindM_ok hloop] at h2
    rw [Prod.mk.injEq, Prod.mk.injEq] at h2
    obtain ⟨hx, -, -⟩ := h2
    simp only [M.bindM, M.modifyS, M.pureM, M.pure_apply, Except.ok.injEq] at hx
    subst hx
    have h3 := mapM_loop_actionDef_proj env .global (env.globalFiles.filter enabled) [] _ _ _ _ hloop
    exact h3

theorem listLocalActions_proj (env : Env) (gc : Option (List ActionDefinition))
    (sc : List (String × String)) (vs : List String) (bw : List (String × String))
    {loc : List ActionDefinition} {s2 : SState} {t : List Effect}
    (h : listLocalActions env ⟨gc, none, sc, vs, bw⟩ = (.ok loc, s2, t)) :
    loc.map (fun a => (a.name, a.location, a.legacy)) =
      (env.localFiles.filter enabled).map
        (fun f => (stripActionExt f, ActionLocation.localScope, !includesHttpJs f)) := by
  have h2 : M.bindM (List.mapM.loop (fun f => getActionDefinition env f .localScope true)
      (env.localFiles.filter enabled) [])
      (fun actions => M.bindM (M.modifyS (fun st => { st with localActionsCache := some actions }))
        (fun _ => pure actions)) ⟨gc, none, sc, vs, bw⟩ = (.ok loc, s2, t) := h
  rcases hloop : List.mapM.loop (fun f => getActionDefinition env f .localScope true)
      (env.localFiles.filter enabled) [] ⟨gc, none, sc, vs, bw⟩ with ⟨r, s1, t1⟩
  cases r with
  | error e =>
    rw [M.bindM_error hloop] at h2
    simp at h2
  | ok as2 =>
    rw [M.bindM_ok hloop] at h2
    rw [Prod.mk.injEq, Prod.mk.injEq] at h2
    obtain ⟨hx, -, -⟩ := h2
    simp only [M.bindM, M.modifyS, M.pureM, M.pure_apply, Except.ok.injEq] at hx
    subst hx
    have h3 := mapM_loop_actionDef_proj env .localScope (env.localFiles.filter enabled) [] _ _ _ _ hloop
    exact h3

theorem listActions_split (env : Env)
    {g loc : List ActionDefinition} {s1 s2 : SState} {tG tL : List Effect}
    (hG : listGlobalActions env initState = (.ok g, s1, tG))
    (hL : listLocalActions env s1 = (.ok loc, s2, tL)) :
    listActions env initState = (.ok (g ++ loc), s2, tG ++ (tL ++ [])) := by
  show M.bindM (listGlobalActions env)
    (fun ga => M.bindM (listLocalActions env) (fun la => pure (ga ++ la))) initState = _
  rw [M.bindM_ok hG]
  show ((M.bindM (listLocalActions env) (fun la => pure (g ++ la)) s1).1,
        (M.bindM (listLocalActions env) (fun la => pure (g ++ la)) s1).2.1,
        tG ++ (M.bindM (listLocalActions env) (fun la => pure (g ++ la)) s1).2.2) = _
  rw [M.bindM_ok hL]
  rfl

/-- C8: listing a bot's actions from a fresh state yields all global
actions followed by all local actions, each group preserving the
content store's enumeration order after filtering disabled files, with
no deduplication of names shared between the two scopes. -/
theorem c8_listActions_order (env : Env)
    (g loc : List ActionDefinition) (s1 s2 : SState) (tG tL : List Effect)
    (hG : listGlobalActions env initState = (.ok g, s1, tG))
    (hL : listLocalActions env s1 = (.ok loc, s2, tL))
    (hc1 : s1.localActionsCache = none) :
    listActions env initState = (.ok (g ++ loc), s2, tG ++ (tL ++ [])) ∧
    g.map (fun a => (a.name, a.location, a.legacy)) =
      (env.globalFiles.filter enabled).map
        (fun f => (stripActionExt f, ActionLocation.global, !includesHttpJs f)) ∧
    loc.map (fun a => (a.name, a.location, a.legacy)) =
      (env.localFiles.filter enabled).map
        (fun f => (stripActionExt f, ActionLocation.localScope, !includesHttpJs f)) := by
  obtain ⟨gc1, lc1, sc1, vs1, bw1⟩ := s1
  have hc1b : lc1 = none := hc1
  subst hc1b
  exact ⟨listActions_split env hG hL, listGlobalActions_proj env none [] [] [] hG,
    listLocalActions_proj env gc1 sc1 vs1 bw1 hL⟩

/-- C8 witness: `envDup` has the name `dup` in both scopes; both
survive in the listing, global first. -/
theorem c8_witness :
    (listActions envDup initState).1 = .ok [dupGlobalDef, dupLocalDef] := by
  have hG : listGlobalActions envDup initState =
      (.ok [dupGlobalDef], (listGlobalActions envDup initState).2.1,
       (listGlobalActions envDup initState).2.2) := rfl
  have hL : listLocalActions envDup (listGlobalActions envDup initState).2.1 =
      (.ok [dupLocalDef],
       (listLocalActions envDup (listGlobalActions envDup initState).2.1).2.1,
       (listLocalActions envDup (listGlobalActions envDup initState).2.1).2.2) := rfl
  have h := (c8_listActions_order envDup [dupGlobalDef] [dupLocalDef] _ _ _ _ hG hL rfl).1
  rw [h]
  rfl

theorem getActionScript_global_noLocalRead (env : Env) (a : ActionDefinition)
    (hloc : a.location = .global) :
    TraceOnly (fun eff => ∀ fn, eff ≠ .readLocalFile fn) (getActionScript env a) := by
  unfold getActionScript
  refine traceOnly_bind traceOnly_getS (fun st => ?_)
  cases st.scriptsCache.lookup a.name with
  | some s => exact traceOnly_pure _
  | none =>
    rw [if_pos hloc]
    refine traceOnly_bind ?_ (fun script =>
      traceOnly_bind (traceOnly_modifyS _) (fun _ => traceOnly_pure _))
    unfold readGlobalFile
    refine traceOnly_bind (traceOnly_emit (by intro fn; simp)) (fun _ => ?_)
    cases env.globalFileContents (a.name ++ ".js") with
    | some s => exact traceOnly_pure _
    | none => exact traceOnly_throwErr _

/-- C10: when the global catalog contains an action named `n`, every
lookup of `n` resolves to that global action — `findAction` takes the
first match of the concatenated list and global actions come first —
so a same-named local action is unreachable, and fetching the found
action's script never touches the bot-local store. -/
theorem c10_global_shadows_local (env : Env) (n : String)
    (g loc : List ActionDefinition) (s1 s2 : SState) (tG tL : List Effect)
    (hG : listGlobalActions env initState = (.ok g, s1, tG))
    (hL : listLocalActions env s1 = (.ok loc, s2, tL))
    (hmem : n ∈ g.map ActionDefinition.name) :
    ∃ a, (findAction env n initState).1 = .ok a ∧ a ∈ g ∧ a.name = n ∧
      a.location = ActionLocation.global ∧
      ∀ s3 : SState, ∀ fn, Effect.readLocalFile fn ∉ (getActionScript env a s3).2.2 := by
  have hall := listActions_split env hG hL
  have hfindg : ∃ a, g.find? (fun x => x.name = n) = some a := by
    rw [List.mem_map] at hmem
    obtain ⟨a0, ha0, hname⟩ := hmem
    refine Option.isSome_iff_exists.mp (List.find?_isSome.mpr ⟨a0, ha0, ?_⟩)
    simp [hname]
  obtain ⟨a, hfind⟩ := hfindg
  have hfind2 : (g ++ loc).find? (fun x => x.name = n) = some a := by
    rw [List.find?_append, hfind]
    rfl
  have hamem : a ∈ g := List.mem_of_find?_eq_some hfind
  have haname : a.name = n := by
    have := List.find?_some hfind
    simpa using this
  have haloc : a.location = ActionLocation.global := by
    have hproj := listGlobalActions_proj env none [] [] [] hG
    have : (a.name, a.location, a.legacy) ∈ g.map (fun x => (x.name, x.location, x.legacy)) :=
      List.mem_map.mpr ⟨a, hamem, rfl⟩
    rw [hproj] at this
    rw [List.mem_map] at this
    obtain ⟨f, -, hf⟩ := this
    have := congrArg (fun p => p.2.1) hf
    exact this.symm
  refine ⟨a, ?_, hamem, haname, haloc, ?_⟩
  · show (M.bindM (listActions env) (fun actions =>
      match actions.find? (fun x => x.name = n) with
      | some action => pure action
      | none => M.throwErr (.js ⟨"Action \"" ++ n ++ "\" not found", "findAction"⟩)) initState).1 = .ok a
    rw [M.bindM_ok hall]
    rw [hfind2]
    rfl
  · intro s3 fn hmemf
    exact getActionScript_global_noLocalRead env a haloc s3 _ hmemf fn rfl

/-- C10 witness: in `envDup`, where both scopes contain `dup`, lookup
resolves to the global one. -/
theorem c10_witness :
    ∃ a, (findAction envDup "dup" initState).1 = .ok a ∧ a.location = ActionLocation.global := by
  have hG : listGlobalActions envDup initState =
      (.ok [dupGlobalDef], (listGlobalActions envDup initState).2.1,
       (listGlobalActions envDup initState).2.2) := rfl
  have hL : listLocalActions envDup (listGlobalActions envDup initState).2.1 =
      (.ok [dupLocalDef],
       (listLocalActions envDup (listGlobalActions envDup initState).2.1).2.1,
       (listLocalActions envDup (listGlobalActions envDup initState).2.1).2.2) := rfl
  obtain ⟨a, hf, -, -, hloc, -⟩ := c10_global_shadows_local envDup "dup"
    [dupGlobalDef] [dupLocalDef] _ _ _ _ hG hL (by simp [dupGlobalDef])
  exact ⟨a, hf, hloc⟩

/-- C9 witness: a matching event 5 s after the previous one fires the
clear and empties the dirty caches. -/
theorem c9_witness :
    invalidationStep (5000, burstKey) (some 0, dirtyState, 1) =
      (some 5000, clearCache dirtyState, 2) :=
  c9_debounced_invalidation.2.2.1 5000 0 burstKey dirtyState 1 rfl (by decide)
